import Mathlib

/-!
Verification development for the tricolore.js compositional color mapping
library.  The TypeScript sources are embedded shallowly:

* JavaScript numeric validity (NaN, Infinity) is modelled by the inductive
  type JSNum with exact rational payloads; it is used for the validation
  boundary of CompositionUtils.close, where the distinction between NaN and
  Infinity matters.
* The numeric core (ternary geometry, compositional algebra, color mapping)
  is embedded over an arbitrary linear ordered field K (instantiated at the
  rationals for executable checks and at the reals for the trigonometric
  color pipeline), idealizing IEEE doubles as exact field arithmetic.
-/

namespace Tricolore

/-! ## JavaScript number semantics (validation boundary) -/

/-- A JavaScript number: a finite value (idealized as a rational), NaN,
positive Infinity or negative Infinity. -/
inductive JSNum where
  | fin (q : ℚ)
  | nan
  | inf
  | ninf
deriving DecidableEq

/-- The Number.isNaN test. -/
def JSNum.isNaN : JSNum → Bool
  | .nan => true
  | _ => false

/-- IEEE addition on JavaScript numbers (signed zeros identified). -/
def JSNum.add : JSNum → JSNum → JSNum
  | .nan, _ => .nan
  | _, .nan => .nan
  | .inf, .ninf => .nan
  | .ninf, .inf => .nan
  | .inf, _ => .inf
  | _, .inf => .inf
  | .ninf, _ => .ninf
  | _, .ninf => .ninf
  | .fin a, .fin b => .fin (a + b)

/-- IEEE division on JavaScript numbers (signed zeros identified). -/
def JSNum.div : JSNum → JSNum → JSNum
  | .nan, _ => .nan
  | _, .nan => .nan
  | .inf, .inf => .nan
  | .inf, .ninf => .nan
  | .ninf, .inf => .nan
  | .ninf, .ninf => .nan
  | .inf, .fin b => if b < 0 then .ninf else .inf
  | .ninf, .fin b => if b < 0 then .inf else .ninf
  | .fin _, .inf => .fin 0
  | .fin _, .ninf => .fin 0
  | .fin a, .fin b =>
      if b = 0 then (if a = 0 then .nan else if a < 0 then .ninf else .inf)
      else .fin (a / b)

/-- CompositionUtils.isValidTernary: an array is valid when it has exactly 3
components, each of type number and not NaN.  In this model every component
is a number, so the typeof test is vacuous; note that Infinity is NOT
rejected, since the source only tests Number.isNaN. -/
def isValidTernary (p : List JSNum) : Bool :=
  p.length == 3 && p.all (fun v => !v.isNaN)

/-- CompositionUtils.close at the JavaScript number level: per point, return
null (none) when the validity check fails, otherwise divide each component by
the component sum. -/
def closeJS (P : List (List JSNum)) : List (Option (List JSNum)) :=
  P.map fun p =>
    if isValidTernary p then
      match p with
      | [a, b, c] =>
          let s := (a.add b).add c
          some [a.div s, b.div s, c.div s]
      | _ => none
    else none

/-! ## Ternary geometry over an exact field -/

section Geometry

variable {K : Type*} [LinearOrderedField K] [DecidableEq K]

/-- A ternary point, the exact counterpart of the TernaryPoint triple. -/
abbrev Pt (K : Type*) := K × K × K

/-- Centroid record of TernaryGeometry.ternaryMeshCentroids. -/
structure TernaryCentroid (K : Type*) where
  id : ℕ
  p1 : K
  p2 : K
  p3 : K

/-- The integer g = Math.floor(Math.sqrt(K - id)) of the centroid formula,
with K = k * k. -/
def meshG (k id : ℕ) : ℤ := (Nat.sqrt (k * k - id) : ℤ)

/-- The first parity term ((-K + id + g * (g + 2) + 1) % 2) of the centroid
formula.  For ids in [1, k * k] the argument is positive, so the JavaScript
remainder coincides with the mathematical mod used here. -/
def meshM1 (k id : ℕ) : ℤ :=
  (-(k * k : ℤ) + id + meshG k id * (meshG k id + 2) + 1) % 2

/-- The second parity term ((-K + gsq + id + 2 * g + 1) % 2) of the centroid
formula. -/
def meshM2 (k id : ℕ) : ℤ :=
  (-(k * k : ℤ) + meshG k id * meshG k id + id + 2 * meshG k id + 1) % 2

/-- Closed form for one centroid of the subdivision mesh, following the body
of the loop in TernaryGeometry.ternaryMeshCentroids. -/
def meshCentroid (k id : ℕ) : TernaryCentroid K where
  id := id
  p1 := ((meshM1 k id - 3 * (meshG k id * meshG k id) - 3 * id
            + 3 * (k * k) + 1 : ℤ) : K) / (6 * k)
  p2 := -((meshM2 k id + 3 * meshG k id - 3 * k + 1 : ℤ) : K) / (3 * k)
  p3 := ((meshM2 k id + 3 * (meshG k id * meshG k id) + 6 * meshG k id
            + 3 * id - 3 * (k * k) + 1 : ℤ) : K) / (6 * k)

/-- TernaryGeometry.ternaryMeshCentroids: centroids for ids 1 to k * k. -/
def ternaryMeshCentroids (k : ℕ) : List (TernaryCentroid K) :=
  (List.range (k * k)).map fun i => meshCentroid k (i + 1)

/-- Projection of a centroid record to its coordinate triple, as done by the
caller in ColorMapping.colorMapTricolore. -/
def centroidToPoint (c : TernaryCentroid K) : Pt K := (c.p1, c.p2, c.p3)

/-- The ternary distance between two points: -(q2 q3 + q3 q1 + q1 q2) for the
componentwise difference q. -/
def ternaryDistOne (p c : Pt K) : K :=
  let q1 := p.1 - c.1
  let q2 := p.2.1 - c.2.1
  let q3 := p.2.2 - c.2.2;
  -(q2 * q3 + q3 * q1 + q1 * q2)

/-- TernaryGeometry.ternaryDistance: distances from p to each candidate. -/
def ternaryDistance (p : Pt K) (C : List (Pt K)) : List K :=
  C.map fun c => ternaryDistOne p c

/-- Math.min over a spread array: none on an empty array (JavaScript yields
Infinity there, which then fails the indexOf lookup; see ternaryNearest). -/
def listMin {α : Type*} [LinearOrder α] : List α → Option α
  | [] => none
  | x :: xs => some (xs.foldl min x)

/-- Nearest candidate for a single point: index of the minimum distance, then
candidate lookup.  On an empty candidate list the JavaScript source computes
C[-1] = undefined, modelled as none. -/
def nearestPoint (p : Pt K) (C : List (Pt K)) : Option (Pt K) :=
  (listMin (ternaryDistance p C)).bind fun m => C[(ternaryDistance p C).indexOf m]?

/-- TernaryGeometry.ternaryNearest: per point, null propagates, otherwise the
candidate of minimal ternary distance (first minimum wins). -/
def ternaryNearest (P : List (Option (Pt K))) (C : List (Pt K)) :
    List (Option (Pt K)) :=
  P.map fun po => po.bind fun p => nearestPoint p C

/-- Per-point body of TernaryGeometry.ternarySurroundingSextant: compare each
component strictly against the center, then the fixed six-way lookup. -/
def sextantOf (p center : Pt K) : Option ℕ :=
  let l1 := p.1 > center.1
  let l2 := p.2.1 > center.2.1
  let l3 := p.2.2 > center.2.2
  if l1 ∧ ¬l2 ∧ ¬l3 then some 1
  else if l1 ∧ l2 ∧ ¬l3 then some 2
  else if ¬l1 ∧ l2 ∧ ¬l3 then some 3
  else if ¬l1 ∧ l2 ∧ l3 then some 4
  else if ¬l1 ∧ ¬l2 ∧ l3 then some 5
  else if l1 ∧ ¬l2 ∧ l3 then some 6
  else none

/-- TernaryGeometry.ternarySurroundingSextant: null propagates, otherwise the
sextant id of the point relative to the center. -/
def ternarySurroundingSextant (P : List (Option (Pt K))) (center : Pt K) :
    List (Option ℕ) :=
  P.map fun po => po.bind fun p => sextantOf p center

/-- Loop body of TernaryGeometry.ternaryLimits: componentwise min into the
lower triple and max into the upper triple. -/
def ternaryLimitsStep (acc : Pt K × Pt K) (p : Pt K) : Pt K × Pt K :=
  ((min acc.1.1 p.1, min acc.1.2.1 p.2.1, min acc.1.2.2 p.2.2),
   (max acc.2.1 p.1, max acc.2.2.1 p.2.1, max acc.2.2.2 p.2.2))

/-- TernaryGeometry.ternaryLimits: componentwise min and max over a dataset,
starting from lower = (1,1,1) and upper = (0,0,0). -/
def ternaryLimits (P : List (Pt K)) : Pt K × Pt K :=
  P.foldl ternaryLimitsStep ((1, 1, 1), (0, 0, 0))

end Geometry

/-! ## Cartesian projection (over the reals, since it uses sqrt 3) -/

/-- TernaryGeometry.ternaryToCartesian: x = (2 p3 + p2) / 2 and
y = (sqrt 3 / 2) p2. -/
noncomputable def ternaryToCartesian (p : Pt ℝ) : ℝ × ℝ :=
  (0.5 * (2 * p.2.2 + p.2.1), Real.sqrt 3 / 2 * p.2.1)

/-- TernaryGeometry.cartesianToTernary: p2 = 2 y / sqrt 3, p3 = x - p2 / 2,
p1 = 1 - p2 - p3. -/
noncomputable def cartesianToTernary (x y : ℝ) : Pt ℝ :=
  let p2 := 2 * y / Real.sqrt 3
  let p3 := x - p2 / 2
  (1 - p2 - p3, p2, p3)

/-! ## Compositional algebra over an exact field -/

section Algebra

variable {K : Type*} [LinearOrderedField K]

/-- CompositionUtils.close on one point, over an exact field.  The source
guard isValidTernary demands exactly 3 components, each a non-NaN number;
over an exact field the numeric conditions are vacuous and only the arity
condition remains. -/
def closePoint (p : List K) : Option (Pt K) :=
  match p with
  | [a, b, c] =>
      let s := a + b + c
      some (a / s, b / s, c / s)
  | _ => none

/-- CompositionUtils.close over a dataset. -/
def close (P : List (List K)) : List (Option (Pt K)) :=
  P.map closePoint

/-- CompositionUtils.perturbe on one point: componentwise product with the
perturbation vector, then renormalization by the sum. -/
def perturbePoint (p c : Pt K) : Pt K :=
  let r1 := p.1 * c.1
  let r2 := p.2.1 * c.2.1
  let r3 := p.2.2 * c.2.2
  let s := r1 + r2 + r3
  (r1 / s, r2 / s, r3 / s)

/-- CompositionUtils.perturbe over a dataset; null propagates. -/
def perturbe (P : List (Option (Pt K))) (c : Pt K) : List (Option (Pt K)) :=
  P.map fun po => po.map fun p => perturbePoint p c

end Algebra

/-- CompositionUtils.powerScale on one point: componentwise Math.pow by the
scale, then renormalization.  Math.pow is idealized as the real power
function. -/
noncomputable def powerScalePoint (p : Pt ℝ) (scale : ℝ) : Pt ℝ :=
  let r1 := p.1 ^ scale
  let r2 := p.2.1 ^ scale
  let r3 := p.2.2 ^ scale
  let s := r1 + r2 + r3
  (r1 / s, r2 / s, r3 / s)

/-- CompositionUtils.powerScale over a dataset; null propagates. -/
noncomputable def powerScale (P : List (Option (Pt ℝ))) (scale : ℝ) :
    List (Option (Pt ℝ)) :=
  P.map fun po => po.map fun p => powerScalePoint p scale

/-! ## Color mapping -/

/-- Truncation toward zero, the rounding used by the JavaScript % operator. -/
noncomputable def jsTrunc (x : ℝ) : ℝ :=
  if x < 0 then ((⌈x⌉ : ℤ) : ℝ) else ((⌊x⌋ : ℤ) : ℝ)

/-- The JavaScript remainder operator on numbers: a - b * trunc (a / b). -/
noncomputable def jsRem (a b : ℝ) : ℝ := a - b * jsTrunc (a / b)

/-- Math.atan2 y x, idealized as the argument of the complex number
x + i y. -/
noncomputable def jsAtan2 (y x : ℝ) : ℝ := Complex.arg ⟨x, y⟩

/-- Math.round: round half toward positive infinity. -/
noncomputable def jsRound (x : ℝ) : ℤ := ⌊x + 1 / 2⌋

/-- Two lowercase hex digits for a byte, as produced by toString(16) plus the
single-digit zero padding in ColorMapping.hclToHex. -/
def jsHexByte (n : ℕ) : String :=
  let ds := Nat.toDigits 16 n
  if ds.length = 1 then String.mk ('0' :: ds) else String.mk ds

/-- ColorMapping.hclToHex: HCL to LAB to XYZ (D65) to sRGB with gamma
encoding, clamping, 8-bit quantization and hex formatting. -/
noncomputable def hclToHex (h c l : ℝ) : String :=
  let h1 := jsRem h 360
  let h2 := if h1 < 0 then h1 + 360 else h1
  let c1 := max 0 (min c 230)
  let l1 := max 0 (min l 100)
  let hRad := h2 * Real.pi / 180
  let a := Real.cos hRad * c1
  let bb := Real.sin hRad * c1
  let y := (l1 + 16) / 116
  let x := a / 500 + y
  let z := y - bb / 200
  let fx := if x > 0.206893034 then x ^ (3 : ℕ) else (x - 16 / 116) / 7.787
  let fy := if y > 0.206893034 then y ^ (3 : ℕ) else (y - 16 / 116) / 7.787
  let fz := if z > 0.206893034 then z ^ (3 : ℕ) else (z - 16 / 116) / 7.787
  let bigX := 0.95047 * fx
  let bigY := 1.0 * fy
  let bigZ := 1.08883 * fz
  let r0 := 3.2406 * bigX - 1.5372 * bigY - 0.4986 * bigZ
  let g0 := -0.9689 * bigX + 1.8758 * bigY + 0.0415 * bigZ
  let b0 := 0.0557 * bigX - 0.204 * bigY + 1.057 * bigZ
  let gamma := fun v : ℝ =>
    if v > 0.0031308 then 1.055 * v ^ ((1 : ℝ) / 2.4) - 0.055 else 12.92 * v
  let to8bit := fun v : ℝ => (jsRound (max 0 (min 1 v) * 255)).toNat
  String.append "#"
    (String.append (jsHexByte (to8bit (gamma r0)))
      (String.append (jsHexByte (to8bit (gamma g0))) (jsHexByte (to8bit (gamma b0)))))

/-- Result record of ColorMapping.colorMapTricolore.  The p fields are
optional because on a wrong-arity input the JavaScript source reads absent
array slots. -/
structure TricoloreResult where
  p1 : Option ℝ
  p2 : Option ℝ
  p3 : Option ℝ
  h : Option ℝ
  c : Option ℝ
  l : Option ℝ
  rgb : Option String

/-- Per-element result constructor of ColorMapping.colorMapTricolore: the
null branch reports the raw input components with null color fields, the
valid branch runs the trichromatic hue mixing on the scaled point and
reports the independently closed components. -/
noncomputable def tricoloreResultOf (hue chroma lightness contrast : ℝ)
    (praw : List ℝ) (pno : Option (Pt ℝ)) (s : Option (Pt ℝ)) :
    TricoloreResult :=
  match s with
  | none =>
      { p1 := praw[0]?, p2 := praw[1]?, p3 := praw[2]?,
        h := none, c := none, l := none, rgb := none }
  | some p =>
      let bigC1 := p.1 * chroma
      let bigC2 := p.2.1 * chroma
      let bigC3 := p.2.2 * chroma
      let phi1 := hue * Real.pi / 180
      let phi2 := (hue + 120) * Real.pi / 180
      let phi3 := (hue + 240) * Real.pi / 180
      let zre := bigC1 * Real.cos phi1 + bigC2 * Real.cos phi2 + bigC3 * Real.cos phi3
      let zim := bigC1 * Real.sin phi1 + bigC2 * Real.sin phi2 + bigC3 * Real.sin phi3
      let h0 := jsRem (jsAtan2 zim zre * 180 / Real.pi + 360) 360
      let c0 := Real.sqrt (zre * zre + zim * zim)
      let cfactor := c0 * contrast / chroma + 1 - contrast
      let l0 := cfactor * lightness
      let adjC := cfactor * c0
      { p1 := pno.map fun q => q.1,
        p2 := pno.map fun q => q.2.1,
        p3 := pno.map fun q => q.2.2,
        h := some h0, c := some adjC, l := some l0,
        rgb := some (hclToHex h0 adjC l0) }

/-- ColorMapping.colorMapTricolore.  The breaks parameter is a subdivision
count or none for Infinity (the continuous scale); discretization happens
exactly when breaks is finite and below 100. -/
noncomputable def colorMapTricolore (P : List (List ℝ)) (center : Pt ℝ)
    (breaks : Option ℕ) (hue chroma lightness contrast spread : ℝ) :
    List TricoloreResult :=
  let pNotrans := close P
  let closed := close P
  let closed2 :=
    match breaks with
    | some n =>
        if n < 100 then
          ternaryNearest closed ((ternaryMeshCentroids n).map centroidToPoint)
        else closed
    | none => closed
  let centered := perturbe closed2 (1 / center.1, 1 / center.2.1, 1 / center.2.2)
  let scaled := powerScale centered spread
  List.zipWith
    (fun pr s => tricoloreResultOf hue chroma lightness contrast pr.1 pr.2 s)
    (P.zip pNotrans) scaled

/-- The discretization step of colorMapTricolore on a single closed point. -/
noncomputable def tricoloreDiscretize (breaks : Option ℕ) (po : Option (Pt ℝ)) :
    Option (Pt ℝ) :=
  match breaks with
  | some n =>
      if n < 100 then
        po.bind fun p => nearestPoint p ((ternaryMeshCentroids n).map centroidToPoint)
      else po
  | none => po

/-- The whole colorMapTricolore pipeline on a single input element. -/
noncomputable def tricoloreElem (center : Pt ℝ) (breaks : Option ℕ)
    (hue chroma lightness contrast spread : ℝ) (p : List ℝ) : TricoloreResult :=
  tricoloreResultOf hue chroma lightness contrast p (closePoint p)
    ((tricoloreDiscretize breaks (closePoint p)).map fun q =>
      powerScalePoint
        (perturbePoint q (1 / center.1, 1 / center.2.1, 1 / center.2.2)) spread)

/-- Result record of ColorMapping.colorMapSextant. -/
structure SextantResult where
  p1 : Option ℝ
  p2 : Option ℝ
  p3 : Option ℝ
  sextant : Option ℕ
  rgb : Option String

/-- ColorMapping.colorMapSextant: fails when the palette does not have
exactly 6 entries, otherwise closes the input, classifies each point into a
sextant and looks the color up in the palette (1-indexed). -/
noncomputable def colorMapSextant (P : List (List ℝ)) (center : Pt ℝ)
    (values : List String) : Except String (List SextantResult) :=
  if values.length ≠ 6 then
    Except.error "Sextant values array must have exactly 6 elements"
  else
    let closed := close P
    let sextants := ternarySurroundingSextant closed center
    Except.ok <|
      List.zipWith
        (fun pr sx =>
          match pr.2 with
          | none =>
              { p1 := pr.1[0]?, p2 := pr.1[1]?, p3 := pr.1[2]?,
                sextant := none, rgb := none }
          | some p =>
              { p1 := some p.1, p2 := some p.2.1, p3 := some p.2.2,
                sextant := sx, rgb := sx.bind fun s => values[s - 1]? })
        (P.zip closed) sextants

/-- The colorMapSextant pipeline on a single input element. -/
noncomputable def sextantElem (center : Pt ℝ) (values : List String) (p : List ℝ) :
    SextantResult :=
  match closePoint p with
  | none =>
      { p1 := p[0]?, p2 := p[1]?, p3 := p[2]?, sextant := none, rgb := none }
  | some q =>
      { p1 := some q.1, p2 := some q.2.1, p3 := some q.2.2,
        sextant := sextantOf q center,
        rgb := (sextantOf q center).bind fun s => values[s - 1]? }

/-! ## Master elementwise lemmas -/

/-- Zipping a list with its own images and combining pointwise is a map. -/
theorem zipWith_zip_map {α β γ δ : Type*} (f : α × β → γ → δ) (g : α → β)
    (h : α → γ) (P : List α) :
    List.zipWith f (P.zip (P.map g)) (P.map h) =
      P.map fun p => f (p, g p) (h p) := by
  induction P with
  | nil => rfl
  | cons p t ih => simpa using ih

/-- colorMapTricolore is a per-element map: each output element depends only
on the corresponding input element. -/
theorem colorMapTricolore_eq_map (P : List (List ℝ)) (center : Pt ℝ)
    (breaks : Option ℕ) (hue chroma lightness contrast spread : ℝ) :
    colorMapTricolore P center breaks hue chroma lightness contrast spread =
      P.map (tricoloreElem center breaks hue chroma lightness contrast spread) := by
  induction P with
  | nil =>
      cases breaks with
      | none => rfl
      | some n =>
          by_cases hn : n < 100 <;>
            simp [colorMapTricolore, close, ternaryNearest, perturbe, powerScale, hn]
  | cons p t ih =>
      cases breaks with
      | none =>
          simp only [colorMapTricolore, close, List.map_cons, perturbe, powerScale,
            List.zip_cons_cons, List.zipWith_cons_cons, List.map_map] at ih ⊢
          rw [ih]
          simp [tricoloreElem, tricoloreDiscretize, Option.map_map, Function.comp_def]
      | some n =>
          by_cases hn : n < 100 <;>
            simp only [colorMapTricolore, close, List.map_cons, perturbe, powerScale,
              ternaryNearest, hn, if_true, if_false, List.zip_cons_cons,
              List.zipWith_cons_cons, List.map_map] at ih ⊢ <;>
            rw [ih] <;>
            simp [tricoloreElem, tricoloreDiscretize, hn, Option.map_map,
              Function.comp_def]

/-- colorMapSextant with a 6-entry palette is a per-element map. -/
theorem colorMapSextant_eq_map (P : List (List ℝ)) (center : Pt ℝ)
    (values : List String) (hv : values.length = 6) :
    colorMapSextant P center values = Except.ok (P.map (sextantElem center values)) := by
  unfold colorMapSextant
  rw [if_neg (by simp [hv])]
  refine congrArg Except.ok ?_
  induction P with
  | nil => rfl
  | cons p t ih =>
      simp only [close, List.map_cons, ternarySurroundingSextant,
        List.zip_cons_cons, List.zipWith_cons_cons] at ih ⊢
      rw [ih]
      rcases hc : closePoint p with _ | q <;> simp [sextantElem, hc]

/-! ## Properties of the minimum fold and of the ternary distance -/

section MinLemmas

variable {α : Type*} [LinearOrder α]

theorem foldl_min_le_init (xs : List α) (x : α) : xs.foldl min x ≤ x := by
  induction xs generalizing x with
  | nil => exact le_refl x
  | cons y ys ih => exact le_trans (ih (min x y)) (min_le_left x y)

theorem foldl_min_le_mem (xs : List α) (x y : α) (hy : y ∈ xs) :
    xs.foldl min x ≤ y := by
  induction xs generalizing x with
  | nil => cases hy
  | cons z zs ih =>
      rcases List.mem_cons.1 hy with rfl | hy2
      · exact le_trans (foldl_min_le_init zs (min x y)) (min_le_right x y)
      · exact ih (min x z) hy2

theorem foldl_min_mem (xs : List α) (x : α) :
    xs.foldl min x = x ∨ xs.foldl min x ∈ xs := by
  induction xs generalizing x with
  | nil => exact Or.inl rfl
  | cons z zs ih =>
      rcases ih (min x z) with h | h
      · rcases min_choice x z with hm | hm
        · exact Or.inl (by rw [List.foldl_cons, h, hm])
        · exact Or.inr (by rw [List.foldl_cons, h, hm]; exact List.mem_cons_self z zs)
      · exact Or.inr (List.mem_cons_of_mem z h)

theorem listMin_spec {l : List α} (h : l ≠ []) :
    ∃ m, listMin l = some m ∧ m ∈ l ∧ ∀ y ∈ l, m ≤ y := by
  match l with
  | [] => exact absurd rfl h
  | x :: xs =>
      refine ⟨xs.foldl min x, rfl, ?_, ?_⟩
      · rcases foldl_min_mem xs x with h1 | h1
        · rw [h1]; exact List.mem_cons_self x xs
        · exact List.mem_cons_of_mem x h1
      · intro y hy
        rcases List.mem_cons.1 hy with rfl | hy2
        · exact foldl_min_le_init xs y
        · exact foldl_min_le_mem xs x y hy2

end MinLemmas

section DistLemmas

variable {K : Type*} [LinearOrderedField K]

theorem ternaryDistOne_self (p : Pt K) : ternaryDistOne p p = 0 := by
  simp [ternaryDistOne]

theorem ternaryDistOne_nonneg (p q : Pt K)
    (h : p.1 + p.2.1 + p.2.2 = q.1 + q.2.1 + q.2.2) : 0 ≤ ternaryDistOne p q := by
  obtain ⟨a1, a2, a3⟩ := p
  obtain ⟨b1, b2, b3⟩ := q
  simp only [ternaryDistOne] at *
  have hc : a3 - b3 = -((a1 - b1) + (a2 - b2)) := by linarith
  have key : -((a2 - b2) * (a3 - b3) + (a3 - b3) * (a1 - b1) + (a1 - b1) * (a2 - b2))
      = (a1 - b1) ^ 2 + (a1 - b1) * (a2 - b2) + (a2 - b2) ^ 2 := by
    rw [hc]; ring
  rw [key]
  nlinarith [sq_nonneg (2 * (a1 - b1) + (a2 - b2)), sq_nonneg (a2 - b2)]

theorem ternaryDistOne_eq_zero (p q : Pt K)
    (h : p.1 + p.2.1 + p.2.2 = q.1 + q.2.1 + q.2.2)
    (hd : ternaryDistOne p q = 0) : p = q := by
  obtain ⟨a1, a2, a3⟩ := p
  obtain ⟨b1, b2, b3⟩ := q
  simp only [ternaryDistOne] at *
  have hc : a3 - b3 = -((a1 - b1) + (a2 - b2)) := by linarith
  rw [hc] at hd
  have hd2 : (a1 - b1) ^ 2 + (a1 - b1) * (a2 - b2) + (a2 - b2) ^ 2 = 0 := by
    nlinarith [hd]
  have h1 : a1 = b1 := by
    nlinarith [sq_nonneg (a1 - b1 + (a2 - b2)), sq_nonneg (a1 - b1),
      sq_nonneg (a2 - b2), hd2]
  have h2 : a2 = b2 := by
    nlinarith [sq_nonneg (a1 - b1 + (a2 - b2)), sq_nonneg (a1 - b1),
      sq_nonneg (a2 - b2), hd2]
  have h3 : a3 = b3 := by linarith
  simp [h1, h2, h3]

theorem ternaryDistance_getElem (p : Pt K) (C : List (Pt K)) (i : ℕ)
    (hi : i < (ternaryDistance p C).length) (hi2 : i < C.length) :
    (ternaryDistance p C)[i] = ternaryDistOne p C[i] := by
  simp [ternaryDistance]

end DistLemmas

section NearestLemmas

variable {K : Type*} [LinearOrderedField K] [DecidableEq K]

theorem nearestPoint_isSome (p : Pt K) (C : List (Pt K)) (hC : C ≠ []) :
    ∃ q ∈ C, nearestPoint p C = some q := by
  have hds : ternaryDistance p C ≠ [] := by
    simp only [ternaryDistance]
    exact fun hmap => hC (List.map_eq_nil_iff.1 hmap)
  obtain ⟨m, hm, hmem, -⟩ := listMin_spec hds
  have hidx : (ternaryDistance p C).indexOf m < (ternaryDistance p C).length :=
    List.indexOf_lt_length.2 hmem
  have hlen : (ternaryDistance p C).length = C.length := by
    simp [ternaryDistance]
  have hidx2 : (ternaryDistance p C).indexOf m < C.length := hlen ▸ hidx
  refine ⟨C[(ternaryDistance p C).indexOf m], List.getElem_mem hidx2, ?_⟩
  rw [nearestPoint, hm, Option.some_bind, List.getElem?_eq_getElem hidx2]

theorem nearestPoint_self (C : List (Pt K))
    (hsum : ∀ q ∈ C, q.1 + q.2.1 + q.2.2 = 1) (p : Pt K) (hp : p ∈ C) :
    nearestPoint p C = some p := by
  have hds : ternaryDistance p C ≠ [] := by
    simp only [ternaryDistance]
    exact fun hmap => (List.ne_nil_of_mem hp) (List.map_eq_nil_iff.1 hmap)
  obtain ⟨m, hm, hmem, hle⟩ := listMin_spec hds
  have hm0 : m = 0 := by
    refine le_antisymm ?_ ?_
    · have hdd : ternaryDistOne p p ∈ ternaryDistance p C := by
        simp only [ternaryDistance]
        exact List.mem_map_of_mem (fun c => ternaryDistOne p c) hp
      have := hle (ternaryDistOne p p) hdd
      simpa [ternaryDistOne_self] using this
    · have hmem2 : m ∈ C.map fun c => ternaryDistOne p c := hmem
      obtain ⟨q, hqC, hq⟩ := List.mem_map.1 hmem2
      rw [← hq]
      exact ternaryDistOne_nonneg p q (by rw [hsum p hp, hsum q hqC])
  have hidx : (ternaryDistance p C).indexOf m < (ternaryDistance p C).length :=
    List.indexOf_lt_length.2 hmem
  have hlen : (ternaryDistance p C).length = C.length := by
    simp [ternaryDistance]
  have hidx2 : (ternaryDistance p C).indexOf m < C.length := hlen ▸ hidx
  have hval : (ternaryDistance p C)[(ternaryDistance p C).indexOf m] = m :=
    List.getElem_indexOf hidx
  have hval2 : ternaryDistOne p C[(ternaryDistance p C).indexOf m] = m :=
    (ternaryDistance_getElem p C _ hidx hidx2).symm.trans hval
  have hCq : C[(ternaryDistance p C).indexOf m] = p := by
    refine (ternaryDistOne_eq_zero p _ ?_ (by rw [hval2, hm0])).symm
    rw [hsum p hp, hsum _ (List.getElem_mem hidx2)]
  rw [nearestPoint, hm, Option.some_bind, List.getElem?_eq_getElem hidx2, hCq]

end NearestLemmas

/-! ## Properties of the mesh centroid formulas -/

section MeshLemmas

variable {K : Type*} [LinearOrderedField K]

theorem meshM1_eq_meshM2 (k id : ℕ) : meshM1 k id = meshM2 k id := by
  unfold meshM1 meshM2
  congr 1
  ring

theorem meshM2_bounds (k id : ℕ) : 0 ≤ meshM2 k id ∧ meshM2 k id < 2 :=
  ⟨Int.emod_nonneg _ (by norm_num), Int.emod_lt_of_pos _ (by norm_num)⟩

theorem meshCentroid_sum (k id : ℕ) (hk : 0 < k) :
    (meshCentroid k id : TernaryCentroid K).p1 + (meshCentroid k id : TernaryCentroid K).p2
      + (meshCentroid k id : TernaryCentroid K).p3 = 1 := by
  have hkK : (k : K) ≠ 0 := Nat.cast_ne_zero.2 hk.ne'
  simp only [meshCentroid, meshM1_eq_meshM2]
  push_cast
  field_simp
  ring

theorem meshCentroid_point_inj (k : ℕ) (hk : 0 < k) (i j : ℕ)
    (h : centroidToPoint (meshCentroid k i : TernaryCentroid K) =
      centroidToPoint (meshCentroid k j)) : i = j := by
  have hkK : (k : K) ≠ 0 := Nat.cast_ne_zero.2 hk.ne'
  rw [centroidToPoint, centroidToPoint, Prod.mk.injEq, Prod.mk.injEq] at h
  obtain ⟨h1, h2, -⟩ := h
  simp only [meshCentroid, meshM1_eq_meshM2] at h1 h2
  have h3k : (3 * (k : K)) ≠ 0 := by
    simp [hkK]
  have h6k : (6 * (k : K)) ≠ 0 := by
    simp [hkK]
  have e2 : meshM2 k i + 3 * meshG k i - 3 * (k : ℤ) + 1 =
      meshM2 k j + 3 * meshG k j - 3 * (k : ℤ) + 1 := by
    have t1 := (div_eq_div_iff h3k h3k).1 h2
    have hK : ((meshM2 k i + 3 * meshG k i - 3 * (k : ℤ) + 1 : ℤ) : K) =
        ((meshM2 k j + 3 * meshG k j - 3 * (k : ℤ) + 1 : ℤ) : K) := by
      have t2 := mul_right_cancel₀ h3k t1
      have t3 := neg_inj.1 t2
      push_cast at t3 ⊢
      linarith [t3]
    exact_mod_cast hK
  have hb1 := meshM2_bounds k i
  have hb2 := meshM2_bounds k j
  have hg : meshG k i = meshG k j := by omega
  have hmm : meshM2 k i = meshM2 k j := by omega
  have e1 : meshM2 k i - 3 * (meshG k i * meshG k i) - 3 * (i : ℤ)
        + 3 * ((k : ℤ) * k) + 1 =
      meshM2 k j - 3 * (meshG k j * meshG k j) - 3 * (j : ℤ)
        + 3 * ((k : ℤ) * k) + 1 := by
    have t1 := (div_eq_div_iff h6k h6k).1 h1
    have hK : ((meshM2 k i - 3 * (meshG k i * meshG k i) - 3 * (i : ℤ)
          + 3 * ((k : ℤ) * k) + 1 : ℤ) : K) =
        ((meshM2 k j - 3 * (meshG k j * meshG k j) - 3 * (j : ℤ)
          + 3 * ((k : ℤ) * k) + 1 : ℤ) : K) := by
      have t2 := mul_right_cancel₀ h6k t1
      push_cast at t2 ⊢
      linarith [t2]
    exact_mod_cast hK
  rw [hg, hmm] at e1
  omega

theorem meshCentroids_sum (k : ℕ) (hk : 0 < k) (q : Pt K)
    (hq : q ∈ (ternaryMeshCentroids k : List (TernaryCentroid K)).map centroidToPoint) :
    q.1 + q.2.1 + q.2.2 = 1 := by
  obtain ⟨c, hc, rfl⟩ := List.mem_map.1 hq
  simp only [ternaryMeshCentroids, List.mem_map, List.mem_range] at hc
  obtain ⟨i, -, rfl⟩ := hc
  simpa [centroidToPoint] using meshCentroid_sum (K := K) k (i + 1) hk

end MeshLemmas

/-! ## Claim theorems -/

/-- C2: sextant classification compares each component of the point strictly
against the corresponding component of the center and realizes exactly the
fixed six-pattern lookup table of the source; any other sign pattern, in
particular a point equal to the center, yields the absence sentinel rather
than an error. -/
theorem sextant_lookup_table {K : Type*} [LinearOrderedField K] (p c : Pt K) :
    (sextantOf p c = some 1 ↔ p.1 > c.1 ∧ ¬p.2.1 > c.2.1 ∧ ¬p.2.2 > c.2.2) ∧
    (sextantOf p c = some 2 ↔ p.1 > c.1 ∧ p.2.1 > c.2.1 ∧ ¬p.2.2 > c.2.2) ∧
    (sextantOf p c = some 3 ↔ ¬p.1 > c.1 ∧ p.2.1 > c.2.1 ∧ ¬p.2.2 > c.2.2) ∧
    (sextantOf p c = some 4 ↔ ¬p.1 > c.1 ∧ p.2.1 > c.2.1 ∧ p.2.2 > c.2.2) ∧
    (sextantOf p c = some 5 ↔ ¬p.1 > c.1 ∧ ¬p.2.1 > c.2.1 ∧ p.2.2 > c.2.2) ∧
    (sextantOf p c = some 6 ↔ p.1 > c.1 ∧ ¬p.2.1 > c.2.1 ∧ p.2.2 > c.2.2) ∧
    (p = c → sextantOf p c = none) := by
  have hcen : p = c → sextantOf p c = none := by
    rintro rfl
    simp [sextantOf]
  refine ⟨?_, ?_, ?_, ?_, ?_, ?_, hcen⟩ <;>
    by_cases h1 : p.1 > c.1 <;> by_cases h2 : p.2.1 > c.2.1 <;>
      by_cases h3 : p.2.2 > c.2.2 <;> simp [sextantOf, h1, h2, h3]

/-- Witness for C2 at the three simplex corners and the default center. -/
theorem sextant_lookup_table_witness :
    sextantOf ((1 : ℚ), 0, 0) (1/3, 1/3, 1/3) = some 1 ∧
    sextantOf ((0 : ℚ), 1, 0) (1/3, 1/3, 1/3) = some 3 ∧
    sextantOf ((0 : ℚ), 0, 1) (1/3, 1/3, 1/3) = some 5 ∧
    sextantOf ((1/3 : ℚ), 1/3, 1/3) (1/3, 1/3, 1/3) = none :=
  ⟨(sextant_lookup_table _ _).1.mpr (by norm_num),
   (sextant_lookup_table _ _).2.2.1.mpr (by norm_num),
   (sextant_lookup_table _ _).2.2.2.2.1.mpr (by norm_num),
   (sextant_lookup_table _ _).2.2.2.2.2.2 rfl⟩

/-- C3: for every positive subdivision count k, the mesh has exactly k * k
centroids, their coordinate triples are pairwise distinct, and ternaryNearest
applied to the centroids with themselves as candidates returns every centroid
unchanged. -/
theorem meshCentroids_complete {K : Type*} [LinearOrderedField K]
    [DecidableEq K] (k : ℕ) (hk : 0 < k) :
    ((ternaryMeshCentroids k : List (TernaryCentroid K)).map centroidToPoint).length
        = k * k ∧
    ((ternaryMeshCentroids k : List (TernaryCentroid K)).map centroidToPoint).Nodup ∧
    ternaryNearest
        (((ternaryMeshCentroids k : List (TernaryCentroid K)).map centroidToPoint).map some)
        ((ternaryMeshCentroids k).map centroidToPoint) =
      ((ternaryMeshCentroids k : List (TernaryCentroid K)).map centroidToPoint).map some := by
  refine ⟨?_, ?_, ?_⟩
  · simp [ternaryMeshCentroids]
  · rw [ternaryMeshCentroids, List.map_map]
    refine List.Nodup.map ?_ (List.nodup_range _)
    intro a b hab
    have := meshCentroid_point_inj (K := K) k hk (a + 1) (b + 1) hab
    omega
  · have hsum : ∀ q ∈ (ternaryMeshCentroids k : List (TernaryCentroid K)).map centroidToPoint,
        q.1 + q.2.1 + q.2.2 = 1 := fun q hq => meshCentroids_sum k hk q hq
    have hnear : ∀ p ∈ (ternaryMeshCentroids k : List (TernaryCentroid K)).map centroidToPoint,
        nearestPoint p ((ternaryMeshCentroids k).map centroidToPoint) = some p :=
      fun p hp => nearestPoint_self _ hsum p hp
    rw [ternaryNearest, List.map_map]
    calc ((ternaryMeshCentroids k : List (TernaryCentroid K)).map centroidToPoint).map
          ((fun po => po.bind fun p =>
            nearestPoint p ((ternaryMeshCentroids k).map centroidToPoint)) ∘ some)
        = ((ternaryMeshCentroids k : List (TernaryCentroid K)).map centroidToPoint).map
          (fun p => nearestPoint p ((ternaryMeshCentroids k).map centroidToPoint)) := by
          simp [Function.comp_def]
      _ = ((ternaryMeshCentroids k : List (TernaryCentroid K)).map centroidToPoint).map
          some := List.map_congr_left hnear

/-- Witness for C3 at subdivision 2 over the rationals. -/
theorem meshCentroids_complete_witness :
    0 < 2 ∧
    (((ternaryMeshCentroids 2 : List (TernaryCentroid ℚ)).map centroidToPoint).length
        = 2 * 2 ∧
    ((ternaryMeshCentroids 2 : List (TernaryCentroid ℚ)).map centroidToPoint).Nodup ∧
    ternaryNearest
        (((ternaryMeshCentroids 2 : List (TernaryCentroid ℚ)).map centroidToPoint).map some)
        ((ternaryMeshCentroids 2).map centroidToPoint) =
      ((ternaryMeshCentroids 2 : List (TernaryCentroid ℚ)).map centroidToPoint).map some) :=
  ⟨by norm_num, meshCentroids_complete (K := ℚ) 2 (by norm_num)⟩

/-- C5 counterexample: the composition (-1, 2, 0) is accepted by the closure
validity check (3 finite numeric components), yet close returns it unchanged
with a negative first component, refuting the claimed non-negativity of the
output for all inputs accepted by that rule. -/
theorem close_negative_counterexample :
    isValidTernary [JSNum.fin (-1), JSNum.fin 2, JSNum.fin 0] = true ∧
    closePoint [(-1 : ℚ), 2, 0] = some (-1, 2, 0) ∧
    ¬(0 : ℚ) ≤ -1 := by
  refine ⟨by decide, ?_, by norm_num⟩
  show some ((-1 : ℚ) / (-1 + 2 + 0), 2 / (-1 + 2 + 0), 0 / (-1 + 2 + 0)) = some (-1, 2, 0)
  norm_num

/-- C5 (amended): for a 3-component composition whose components are
non-negative and have positive sum, close returns 3 components that are
non-negative and sum to 1 within the 1e-9 tolerance. -/
theorem close_nonneg_sum_one {K : Type*} [LinearOrderedField K] (x y z : K)
    (hx : 0 ≤ x) (hy : 0 ≤ y) (hz : 0 ≤ z) (hs : 0 < x + y + z) :
    ∃ a b c : K, closePoint [x, y, z] = some (a, b, c) ∧
      0 ≤ a ∧ 0 ≤ b ∧ 0 ≤ c ∧ |a + b + c - 1| ≤ 1 / 1000000000 := by
  refine ⟨x / (x + y + z), y / (x + y + z), z / (x + y + z), rfl,
    div_nonneg hx hs.le, div_nonneg hy hs.le, div_nonneg hz hs.le, ?_⟩
  have h1 : x / (x + y + z) + y / (x + y + z) + z / (x + y + z) = 1 := by
    field_simp
  rw [h1]
  norm_num

/-- Witness for C5 (amended) at the composition (1, 2, 1). -/
theorem close_nonneg_sum_one_witness :
    ∃ a b c : ℚ, closePoint [(1 : ℚ), 2, 1] = some (a, b, c) ∧
      0 ≤ a ∧ 0 ≤ b ∧ 0 ≤ c ∧ |a + b + c - 1| ≤ 1 / 1000000000 :=
  close_nonneg_sum_one 1 2 1 (by norm_num) (by norm_num) (by norm_num) (by norm_num)

/-- C6: for every point on the simplex, converting to Cartesian coordinates
and back recovers the point exactly over the reals. -/
theorem cartesian_roundtrip (p : Pt ℝ) (h : p.1 + p.2.1 + p.2.2 = 1) :
    cartesianToTernary (ternaryToCartesian p).1 (ternaryToCartesian p).2 = p := by
  obtain ⟨a, b, c⟩ := p
  simp only [ternaryToCartesian, cartesianToTernary] at *
  have h3 : Real.sqrt 3 ≠ 0 := by positivity
  have hb : 2 * (Real.sqrt 3 / 2 * b) / Real.sqrt 3 = b := by
    field_simp
  simp only [Prod.mk.injEq]
  refine ⟨?_, hb, ?_⟩
  · rw [hb]
    linarith [h]
  · rw [hb]
    ring

/-- Witness for C6 at the simplex point (1/2, 1/4, 1/4). -/
theorem cartesian_roundtrip_witness :
    ((1/2 : ℝ), (1/4 : ℝ), (1/4 : ℝ)).1 + ((1/2 : ℝ), (1/4 : ℝ), (1/4 : ℝ)).2.1
        + ((1/2 : ℝ), (1/4 : ℝ), (1/4 : ℝ)).2.2 = 1 ∧
    cartesianToTernary (ternaryToCartesian ((1/2 : ℝ), 1/4, 1/4)).1
        (ternaryToCartesian ((1/2 : ℝ), 1/4, 1/4)).2 = ((1/2 : ℝ), 1/4, 1/4) :=
  ⟨by norm_num, cartesian_roundtrip _ (by norm_num)⟩

/-- C10: on the empty dataset ternaryLimits returns the uninitialized
extremes, lower (1,1,1) strictly above upper (0,0,0) in every component,
without failing; on every non-empty dataset each lower component is bounded
by the corresponding upper component. -/
theorem ternaryLimits_spec {K : Type*} [LinearOrderedField K] :
    (ternaryLimits ([] : List (Pt K)) = ((1, 1, 1), (0, 0, 0)) ∧
      (ternaryLimits ([] : List (Pt K))).2.1 < (ternaryLimits ([] : List (Pt K))).1.1 ∧
      (ternaryLimits ([] : List (Pt K))).2.2.1 < (ternaryLimits ([] : List (Pt K))).1.2.1 ∧
      (ternaryLimits ([] : List (Pt K))).2.2.2 < (ternaryLimits ([] : List (Pt K))).1.2.2) ∧
    ∀ P : List (Pt K), P ≠ [] →
      (ternaryLimits P).1.1 ≤ (ternaryLimits P).2.1 ∧
      (ternaryLimits P).1.2.1 ≤ (ternaryLimits P).2.2.1 ∧
      (ternaryLimits P).1.2.2 ≤ (ternaryLimits P).2.2.2 := by
  have hpres : ∀ (P : List (Pt K)) (acc : Pt K × Pt K),
      acc.1.1 ≤ acc.2.1 ∧ acc.1.2.1 ≤ acc.2.2.1 ∧ acc.1.2.2 ≤ acc.2.2.2 →
      (P.foldl ternaryLimitsStep acc).1.1 ≤ (P.foldl ternaryLimitsStep acc).2.1 ∧
      (P.foldl ternaryLimitsStep acc).1.2.1 ≤ (P.foldl ternaryLimitsStep acc).2.2.1 ∧
      (P.foldl ternaryLimitsStep acc).1.2.2 ≤ (P.foldl ternaryLimitsStep acc).2.2.2 := by
    intro P
    induction P with
    | nil => intro acc h; exact h
    | cons p t ih =>
        intro acc h
        rw [List.foldl_cons]
        refine ih (ternaryLimitsStep acc p) ?_
        refine ⟨?_, ?_, ?_⟩ <;>
          exact le_trans (min_le_right _ _) (le_max_right _ _)
  constructor
  · refine ⟨rfl, ?_, ?_, ?_⟩ <;> norm_num [ternaryLimits]
  · intro P hP
    match P, hP with
    | p :: t, _ =>
        rw [ternaryLimits, List.foldl_cons]
        refine hpres t (ternaryLimitsStep ((1, 1, 1), (0, 0, 0)) p) ?_
        refine ⟨?_, ?_, ?_⟩ <;>
          exact le_trans (min_le_right _ _) (le_max_right _ _)

/-- Witness for C10 on a concrete non-empty rational dataset. -/
theorem ternaryLimits_spec_witness :
    ([((0 : ℚ), 1/2, 1/2), ((1/4 : ℚ), 1/4, 1/2)] : List (Pt ℚ)) ≠ [] ∧
    ((ternaryLimits [((0 : ℚ), 1/2, 1/2), ((1/4 : ℚ), 1/4, 1/2)]).1.1 ≤
      (ternaryLimits [((0 : ℚ), 1/2, 1/2), ((1/4 : ℚ), 1/4, 1/2)]).2.1 ∧
    (ternaryLimits [((0 : ℚ), 1/2, 1/2), ((1/4 : ℚ), 1/4, 1/2)]).1.2.1 ≤
      (ternaryLimits [((0 : ℚ), 1/2, 1/2), ((1/4 : ℚ), 1/4, 1/2)]).2.2.1 ∧
    (ternaryLimits [((0 : ℚ), 1/2, 1/2), ((1/4 : ℚ), 1/4, 1/2)]).1.2.2 ≤
      (ternaryLimits [((0 : ℚ), 1/2, 1/2), ((1/4 : ℚ), 1/4, 1/2)]).2.2.2) :=
  ⟨by decide, (ternaryLimits_spec (K := ℚ)).2 _ (by decide)⟩

/-- A composition with a wrong number of components is closed to the
sentinel. -/
theorem closePoint_none {K : Type*} [LinearOrderedField K] (p : List K)
    (h : p.length ≠ 3) : closePoint p = none := by
  match p with
  | [] => rfl
  | [a] => rfl
  | [a, b] => rfl
  | [a, b, c] => exact absurd rfl h
  | a :: b :: c :: d :: t => rfl

/-- The sextant classifier only produces ids between 1 and 6. -/
theorem sextantOf_mem_range {K : Type*} [LinearOrderedField K] (p c : Pt K)
    (s : ℕ) (h : sextantOf p c = some s) : 1 ≤ s ∧ s ≤ 6 := by
  simp only [sextantOf] at h
  split_ifs at h <;> simp_all <;> omega

/-- C7: with contrast 0 (and a nonzero chroma parameter, a positive number of
breaks when finite), every valid 3-component input element of
colorMapTricolore receives exactly the input lightness parameter as its
computed lightness, regardless of the composition. -/
theorem contrast_zero_constant_lightness (P : List (List ℝ)) (center : Pt ℝ)
    (breaks : Option ℕ) (hue chroma lightness spread : ℝ) (hch : chroma ≠ 0)
    (hbr : breaks ≠ some 0) (i : ℕ) (p : List ℝ) (hp : P[i]? = some p)
    (hlen : p.length = 3) :
    ((colorMapTricolore P center breaks hue chroma lightness 0 spread)[i]?).map
        (fun r => r.l) = some (some lightness) := by
  rw [colorMapTricolore_eq_map, List.getElem?_map, hp]
  obtain ⟨a, b, c, rfl⟩ : ∃ a b c, p = [a, b, c] := by
    match p, hlen with
    | [a, b, c], _ => exact ⟨a, b, c, rfl⟩
  have hdisc : ∃ q, tricoloreDiscretize breaks (closePoint [a, b, c]) = some q := by
    rcases breaks with _ | n
    · exact ⟨_, rfl⟩
    · by_cases hn : n < 100
      · have hnz : 0 < n := Nat.pos_of_ne_zero fun h0 => hbr (by rw [h0])
        have hne : ((ternaryMeshCentroids n : List (TernaryCentroid ℝ)).map
            centroidToPoint) ≠ [] := by
          refine List.ne_nil_of_length_pos ?_
          simp only [List.length_map, ternaryMeshCentroids, List.length_range]
          exact Nat.mul_pos hnz hnz
        obtain ⟨q, -, hnq⟩ := nearestPoint_isSome
          ((a / (a + b + c), b / (a + b + c), c / (a + b + c))) _ hne
        refine ⟨q, ?_⟩
        simp only [tricoloreDiscretize, hn, if_true]
        exact hnq
      · refine ⟨(a / (a + b + c), b / (a + b + c), c / (a + b + c)), ?_⟩
        simp only [tricoloreDiscretize]
        rw [if_neg hn]
        rfl
  obtain ⟨q, hq⟩ := hdisc
  simp only [tricoloreElem, hq, Option.map_some']
  simp [tricoloreResultOf]

/-- Witness for C7 on the composition (1, 0, 0) with the default parameters
and continuous breaks. -/
theorem contrast_zero_constant_lightness_witness :
    (140 : ℝ) ≠ 0 ∧ (none : Option ℕ) ≠ some 0 ∧
    ([[(1 : ℝ), 0, 0]] : List (List ℝ))[0]? = some [(1 : ℝ), 0, 0] ∧
    ([(1 : ℝ), 0, 0] : List ℝ).length = 3 ∧
    ((colorMapTricolore [[(1 : ℝ), 0, 0]] (1/3, 1/3, 1/3) none 80 140 80 0 1)[0]?).map
        (fun r => r.l) = some (some 80) :=
  ⟨by norm_num, by simp, rfl, rfl,
    contrast_zero_constant_lightness _ _ _ _ _ _ _ (by norm_num) (by simp) 0 _ rfl rfl⟩

/-- C4: when breaks is 100 or more the result coincides with the continuous
(infinite breaks) result, so closed points pass through undiscretized; when
breaks is a finite n below 100, any two elements whose closed compositions
share the same nearest centroid among the n * n mesh centroids receive
identical h, c, l and display color fields. -/
theorem breaks_discretization (center : Pt ℝ)
    (hue chroma lightness contrast spread : ℝ) :
    (∀ (P : List (List ℝ)) (n : ℕ), 100 ≤ n →
      colorMapTricolore P center (some n) hue chroma lightness contrast spread =
      colorMapTricolore P center none hue chroma lightness contrast spread) ∧
    (∀ n : ℕ, n < 100 → ∀ p q : List ℝ,
      (closePoint p).bind
          (fun x => nearestPoint x ((ternaryMeshCentroids n).map centroidToPoint)) =
        (closePoint q).bind
          (fun x => nearestPoint x ((ternaryMeshCentroids n).map centroidToPoint)) →
      ((colorMapTricolore [p] center (some n) hue chroma lightness contrast spread)[0]?).map
          (fun r => (r.h, r.c, r.l, r.rgb)) =
        ((colorMapTricolore [q] center (some n) hue chroma lightness contrast spread)[0]?).map
          (fun r => (r.h, r.c, r.l, r.rgb))) := by
  constructor
  · intro P n hn
    have hnot : ¬n < 100 := not_lt.2 hn
    simp [colorMapTricolore, hnot]
  · intro n hn p q hpq
    rw [colorMapTricolore_eq_map, colorMapTricolore_eq_map]
    have hd : tricoloreDiscretize (some n) (closePoint p) =
        tricoloreDiscretize (some n) (closePoint q) := by
      simp only [tricoloreDiscretize, hn, if_true]
      exact hpq
    rcases hs : tricoloreDiscretize (some n) (closePoint q) with _ | qq <;>
      simp [tricoloreElem, tricoloreResultOf, hd, hs]

/-- Witness for C4: breaks 100 agrees with continuous breaks, and with
breaks 3 an element agrees with itself (same mesh cell, same color). -/
theorem breaks_discretization_witness :
    (100 ≤ 100 ∧
      colorMapTricolore [[(1 : ℝ), 0, 0]] (1/3, 1/3, 1/3) (some 100) 80 140 80 0.4 1 =
      colorMapTricolore [[(1 : ℝ), 0, 0]] (1/3, 1/3, 1/3) none 80 140 80 0.4 1) ∧
    ((3 : ℕ) < 100 ∧
      ((colorMapTricolore [[(1 : ℝ), 0, 0]] (1/3, 1/3, 1/3) (some 3) 80 140 80 0.4 1)[0]?).map
          (fun r => (r.h, r.c, r.l, r.rgb)) =
        ((colorMapTricolore [[(1 : ℝ), 0, 0]] (1/3, 1/3, 1/3) (some 3) 80 140 80 0.4 1)[0]?).map
          (fun r => (r.h, r.c, r.l, r.rgb))) :=
  ⟨⟨le_refl 100,
    (breaks_discretization _ _ _ _ _ _).1 _ 100 (le_refl 100)⟩,
   ⟨by norm_num,
    (breaks_discretization _ _ _ _ _ _).2 3 (by norm_num) [(1 : ℝ), 0, 0]
      [(1 : ℝ), 0, 0] rfl⟩⟩

/-- C8: colorMapSextant fails with the invalid palette error exactly when the
palette does not have 6 entries, independently of the points; with a 6-entry
palette it succeeds, each classified element carries the palette entry at its
sextant id minus one (1-indexed lookup), and an undefined sextant yields a
null color. -/
theorem sextant_palette_contract (P : List (List ℝ)) (center : Pt ℝ)
    (values : List String) :
    (values.length ≠ 6 ↔ colorMapSextant P center values =
      Except.error "Sextant values array must have exactly 6 elements") ∧
    (values.length = 6 →
      ∃ L, colorMapSextant P center values = Except.ok L ∧
        ∀ (i : ℕ) (r : SextantResult), L[i]? = some r →
          (∀ s, r.sextant = some s →
            ∃ col, values[s - 1]? = some col ∧ r.rgb = some col) ∧
          (r.sextant = none → r.rgb = none)) := by
  constructor
  · constructor
    · intro h
      simp [colorMapSextant, h]
    · intro h
      by_contra hne
      rw [colorMapSextant_eq_map P center values hne] at h
      exact Except.noConfusion h
  · intro hv
    refine ⟨P.map (sextantElem center values),
      colorMapSextant_eq_map P center values hv, ?_⟩
    intro i r hr
    rw [List.getElem?_map] at hr
    rcases hP : P[i]? with _ | p
    · rw [hP] at hr
      exact Option.noConfusion hr
    · rw [hP] at hr
      have hre : r = sextantElem center values p := (Option.some.inj hr).symm
      rcases hc : closePoint p with _ | q
      · constructor
        · intro s hs
          rw [hre] at hs
          simp [sextantElem, hc] at hs
        · intro _
          rw [hre]
          simp [sextantElem, hc]
      · constructor
        · intro s hs
          rw [hre] at hs
          simp only [sextantElem, hc] at hs
          have hrange := sextantOf_mem_range q center s hs
          have hlt : s - 1 < values.length := by omega
          refine ⟨values[s - 1], List.getElem?_eq_getElem hlt, ?_⟩
          rw [hre]
          simp only [sextantElem, hc, hs, Option.some_bind]
          exact List.getElem?_eq_getElem hlt
        · intro hs
          rw [hre] at hs ⊢
          simp only [sextantElem, hc] at hs ⊢
          rw [hs]
          rfl

/-- Witness for C8: a 5-entry palette fails, the default 6-entry palette
succeeds. -/
theorem sextant_palette_contract_witness :
    colorMapSextant [] (1/3, 1/3, 1/3) ["#a", "#b", "#c", "#d", "#e"] =
      Except.error "Sextant values array must have exactly 6 elements" ∧
    ∃ L, colorMapSextant [] (1/3, 1/3, 1/3)
        ["#FFFF00", "#B3DCC3", "#01A0C6", "#B8B3D8", "#F11D8C", "#FFB3B3"] =
        Except.ok L ∧
      ∀ (i : ℕ) (r : SextantResult), L[i]? = some r →
        (∀ s, r.sextant = some s →
          ∃ col, (["#FFFF00", "#B3DCC3", "#01A0C6", "#B8B3D8", "#F11D8C",
            "#FFB3B3"] : List String)[s - 1]? = some col ∧ r.rgb = some col) ∧
        (r.sextant = none → r.rgb = none) :=
  ⟨(sextant_palette_contract [] (1/3, 1/3, 1/3) _).1.mp (by decide),
   (sextant_palette_contract [] (1/3, 1/3, 1/3) _).2 (by decide)⟩

/-- C9 counterexample: on the unclosed input (2, 2, 2) with continuous
breaks and the default parameters, the result reports the closed first
component 1/3 in its p1 field, not the original component 2 supplied by the
caller. -/
theorem result_components_counterexample :
    ((colorMapTricolore [[(2 : ℝ), 2, 2]] (1/3, 1/3, 1/3) none 80 140 80 0.4 1)[0]?).map
        (fun r => r.p1) = some (some (1/3 : ℝ)) ∧
    some (some (1/3 : ℝ)) ≠ some (some (2 : ℝ)) := by
  constructor
  · rw [colorMapTricolore_eq_map]
    simp [tricoloreElem, tricoloreDiscretize, tricoloreResultOf, closePoint]
    norm_num
  · simp only [ne_eq, Option.some.injEq]
    norm_num

/-- C9 (amended): the p1, p2, p3 fields of each colorMapTricolore element
report the independently closed components of that element whenever its
pipeline value reaches the color stage, and the raw input components when the
element became the absence sentinel; colorMapSextant reports the closed
components for valid elements and the raw components for invalid ones. -/
theorem result_components_closed (P : List (List ℝ)) (center : Pt ℝ)
    (breaks : Option ℕ) (hue chroma lightness contrast spread : ℝ)
    (values : List String) (hv : values.length = 6) (i : ℕ) (p : List ℝ)
    (hp : P[i]? = some p) :
    (∀ r : TricoloreResult,
      (colorMapTricolore P center breaks hue chroma lightness contrast spread)[i]?
          = some r →
      (r.h ≠ none → ∀ q, closePoint p = some q →
        r.p1 = some q.1 ∧ r.p2 = some q.2.1 ∧ r.p3 = some q.2.2) ∧
      (r.h = none → r.p1 = p[0]? ∧ r.p2 = p[1]? ∧ r.p3 = p[2]?)) ∧
    (∀ L : List SextantResult, colorMapSextant P center values = Except.ok L →
      ∀ r : SextantResult, L[i]? = some r →
        (∀ q, closePoint p = some q →
          r.p1 = some q.1 ∧ r.p2 = some q.2.1 ∧ r.p3 = some q.2.2) ∧
        (closePoint p = none → r.p1 = p[0]? ∧ r.p2 = p[1]? ∧ r.p3 = p[2]?)) := by
  constructor
  · intro r hr
    rw [colorMapTricolore_eq_map, List.getElem?_map, hp] at hr
    have hre : r = tricoloreElem center breaks hue chroma lightness contrast spread p :=
      (Option.some.inj hr).symm
    rcases hs : tricoloreDiscretize breaks (closePoint p) with _ | dq
    · constructor
      · intro hh
        exact absurd (by rw [hre]; simp [tricoloreElem, tricoloreResultOf, hs]) hh
      · intro _
        rw [hre]
        simp [tricoloreElem, tricoloreResultOf, hs]
    · constructor
      · intro _ q hq
        rw [hq] at hs
        rw [hre]
        simp [tricoloreElem, tricoloreResultOf, hs, hq]
      · intro hh
        rw [hre] at hh
        simp [tricoloreElem, tricoloreResultOf, hs] at hh
  · intro L hL r hr
    rw [colorMapSextant_eq_map P center values hv] at hL
    have hLe : L = P.map (sextantElem center values) := (Except.ok.inj hL).symm
    rw [hLe, List.getElem?_map, hp] at hr
    have hre : r = sextantElem center values p := (Option.some.inj hr).symm
    constructor
    · intro q hq
      rw [hre]
      simp [sextantElem, hq]
    · intro hq
      rw [hre]
      simp [sextantElem, hq]

/-- Witness for C9 (amended) on a closed and an invalid element. -/
theorem result_components_closed_witness :
    (([[(1 : ℝ), 0, 0]] : List (List ℝ))[0]? = some [(1 : ℝ), 0, 0]) ∧
    ((["#FFFF00", "#B3DCC3", "#01A0C6", "#B8B3D8", "#F11D8C",
        "#FFB3B3"] : List String).length = 6) ∧
    (∀ r : TricoloreResult,
      (colorMapTricolore [[(1 : ℝ), 0, 0]] (1/3, 1/3, 1/3) none 80 140 80 0.4 1)[0]?
          = some r →
      (r.h ≠ none → ∀ q, closePoint [(1 : ℝ), 0, 0] = some q →
        r.p1 = some q.1 ∧ r.p2 = some q.2.1 ∧ r.p3 = some q.2.2) ∧
      (r.h = none →
        r.p1 = ([(1 : ℝ), 0, 0] : List ℝ)[0]? ∧
        r.p2 = ([(1 : ℝ), 0, 0] : List ℝ)[1]? ∧
        r.p3 = ([(1 : ℝ), 0, 0] : List ℝ)[2]?)) :=
  ⟨rfl, rfl,
    (result_components_closed [[(1 : ℝ), 0, 0]] (1/3, 1/3, 1/3) none 80 140 80 0.4 1
      ["#FFFF00", "#B3DCC3", "#01A0C6", "#B8B3D8", "#F11D8C", "#FFB3B3"] rfl 0
      [(1 : ℝ), 0, 0] rfl).1⟩

/-- C1 counterexample: an Infinity component passes the validity check, and
closure maps the element to a non-sentinel array of NaN and zeros instead of
the absence sentinel, refuting the claim for non-finite components other
than NaN. -/
theorem infinity_not_sentinel_counterexample :
    isValidTernary [JSNum.inf, JSNum.fin 1, JSNum.fin 1] = true ∧
    closeJS [[JSNum.inf, JSNum.fin 1, JSNum.fin 1]] =
      [some [JSNum.nan, JSNum.fin 0, JSNum.fin 0]] ∧
    (some [JSNum.nan, JSNum.fin 0, JSNum.fin 0] : Option (List JSNum)) ≠ none := by
  refine ⟨by decide, by decide, by decide⟩

/-- C1 (amended): an element that fails the validity check — wrong arity or
a NaN component — is mapped to the absence sentinel by closure; the sentinel
propagates through perturbation, power scaling and nearest assignment; in
the full pipeline a wrong-arity element surfaces as null color fields; every
call returns one result per input element, and each result element depends
only on the corresponding input element.  Only NaN is caught by the numeric
test: an Infinity component is not mapped to the sentinel (see the
counterexample). -/
theorem invalid_element_sentinel
    (jsP : List (List JSNum)) (i : ℕ) (jp : List JSNum) (hjp : jsP[i]? = some jp)
    (hbad : jp.length ≠ 3 ∨ ∃ v ∈ jp, v.isNaN = true)
    (P Q : List (List ℝ)) (center : Pt ℝ) (breaks : Option ℕ)
    (hue chroma lightness contrast spread : ℝ)
    (j : ℕ) (pj : List ℝ) (hpj : P[j]? = some pj) (hlenj : pj.length ≠ 3) :
    (closeJS jsP)[i]? = some none ∧
    (∀ (L : List (Option (Pt ℝ))) (m : ℕ) (cj : Pt ℝ) (C : List (Pt ℝ)),
      L[m]? = some none →
      (perturbe L cj)[m]? = some none ∧ (powerScale L spread)[m]? = some none ∧
      (ternaryNearest L C)[m]? = some none) ∧
    ((colorMapTricolore P center breaks hue chroma lightness contrast spread)[j]?).map
        (fun r => (r.h, r.c, r.l, r.rgb)) = some (none, none, none, none) ∧
    (colorMapTricolore P center breaks hue chroma lightness contrast spread).length
        = P.length ∧
    (∀ m : ℕ, P[m]? = Q[m]? →
      (colorMapTricolore P center breaks hue chroma lightness contrast spread)[m]? =
      (colorMapTricolore Q center breaks hue chroma lightness contrast spread)[m]?) := by
  refine ⟨?_, ?_, ?_, ?_, ?_⟩
  · have hval : isValidTernary jp = false := by
      rcases hbad with hl | ⟨v, hv, hnan⟩
      · have hb : (jp.length == 3) = false := by
          simpa using hl
        simp [isValidTernary, hb]
      · have hb : jp.all (fun v => !v.isNaN) = false := by
          rw [List.all_eq_false]
          exact ⟨v, hv, by simp [hnan]⟩
        simp [isValidTernary, hb]
    rw [closeJS, List.getElem?_map, hjp]
    simp [hval]
  · intro L m cj C hm
    refine ⟨?_, ?_, ?_⟩ <;>
      · simp only [perturbe, powerScale, ternaryNearest, List.getElem?_map, hm]
        rfl
  · rw [colorMapTricolore_eq_map, List.getElem?_map, hpj]
    have hcl : closePoint pj = none := closePoint_none pj hlenj
    have hds : tricoloreDiscretize breaks (closePoint pj) = none := by
      rcases breaks with _ | n
      · exact hcl
      · by_cases hn : n < 100 <;> simp [tricoloreDiscretize, hn, hcl]
    simp [tricoloreElem, tricoloreResultOf, hds]
  · rw [colorMapTricolore_eq_map]
    exact List.length_map P _
  · intro m hm
    rw [colorMapTricolore_eq_map, colorMapTricolore_eq_map,
      List.getElem?_map, List.getElem?_map, hm]

/-- Witness for C1 (amended) with a NaN element at the JavaScript level and a
wrong-arity element in the real pipeline. -/
theorem invalid_element_sentinel_witness :
    (([[JSNum.nan, JSNum.fin 1, JSNum.fin 1]] : List (List JSNum))[0]?
        = some [JSNum.nan, JSNum.fin 1, JSNum.fin 1]) ∧
    (([[(1 : ℝ), 0]] : List (List ℝ))[0]? = some [(1 : ℝ), 0]) ∧
    ((closeJS [[JSNum.nan, JSNum.fin 1, JSNum.fin 1]])[0]? = some none ∧
      (∀ (L : List (Option (Pt ℝ))) (m : ℕ) (cj : Pt ℝ) (C : List (Pt ℝ)),
        L[m]? = some none →
        (perturbe L cj)[m]? = some none ∧ (powerScale L 1)[m]? = some none ∧
        (ternaryNearest L C)[m]? = some none) ∧
      ((colorMapTricolore [[(1 : ℝ), 0]] (1/3, 1/3, 1/3) none 80 140 80 0.4 1)[0]?).map
          (fun r => (r.h, r.c, r.l, r.rgb)) = some (none, none, none, none) ∧
      (colorMapTricolore [[(1 : ℝ), 0]] (1/3, 1/3, 1/3) none 80 140 80 0.4 1).length
          = ([[(1 : ℝ), 0]] : List (List ℝ)).length ∧
      (∀ m : ℕ, ([[(1 : ℝ), 0]] : List (List ℝ))[m]? =
          ([[(1 : ℝ), 0]] : List (List ℝ))[m]? →
        (colorMapTricolore [[(1 : ℝ), 0]] (1/3, 1/3, 1/3) none 80 140 80 0.4 1)[m]? =
        (colorMapTricolore [[(1 : ℝ), 0]] (1/3, 1/3, 1/3) none 80 140 80 0.4 1)[m]?)) :=
  ⟨rfl, rfl,
    invalid_element_sentinel [[JSNum.nan, JSNum.fin 1, JSNum.fin 1]] 0 _ rfl
      (Or.inr ⟨JSNum.nan, by decide, rfl⟩)
      [[(1 : ℝ), 0]] [[(1 : ℝ), 0]] (1/3, 1/3, 1/3) none 80 140 80 0.4 1
      0 [(1 : ℝ), 0] rfl (by norm_num)⟩

end Tricolore
